import Mathlib

/-!
Verification development for the `cmi-bots` market-making agent
(`IMC Hackathon (cmi-bots)/im.py`, with the order-book normalizer also
present in `Improved version.py`).

Python floats are modelled as exact rationals `ℚ` (all quantities the
claims touch are exact decimal values); the volatility estimator, which
applies `math.log` and a square root, lands in `ℝ`.  Machine-level float
rounding is outside the model.  The random draws consumed by the quoting
loop (`random.random()` per level, `random.randint` for simulated order
ids, the Gaussian noise of the synthetic mid generator) are passed in as
explicit parameters, so every theorem quantifies over them.
-/

/-- Python's built-in `round` on an exact value: nearest integer, ties to
even (banker's rounding).  Used by `SmartMarketMakingBot._price_to_tick`. -/
def pyRound (x : ℚ) : ℤ :=
  let f := ⌊x⌋
  let frac := x - f
  if frac < 1/2 then f
  else if 1/2 < frac then f + 1
  else if 2 ∣ f then f else f + 1

/-- `SmartMarketMakingBot._price_to_tick`: `round(price / tick) * tick`. -/
def priceToTick (price tick : ℚ) : ℚ :=
  (pyRound (price / tick) : ℚ) * tick

/-- Python `int(x)` on a non-integral value: truncation toward zero. -/
def truncQ (x : ℚ) : ℤ :=
  if 0 ≤ x then ⌊x⌋ else ⌈x⌉

/-- The tunable fields of `SmartMarketMakingBot`, with the source's
default values (`min_tick_width=2.0`, `base_volume=10`,
`inventory_limit=100`, `skew_coeff=0.03`, `vol_coeff=200.0`, `levels=2`,
`jitter=0.2`). -/
structure MMParams where
  minTickWidth : ℚ := 2
  baseVolume : ℤ := 10
  inventoryLimit : ℤ := 100
  skewCoeff : ℚ := 3/100
  volCoeff : ℚ := 200
  levels : ℕ := 2
  jitter : ℚ := 1/5
deriving DecidableEq

/-- `SmartMarketMakingBot._compute_half_spread_ticks`, with the
volatility estimate (`self._get_vol_est(product, window=30)`) passed in:
`(max(min_tick_width, 1.0) + vol * vol_coeff + 0.02 * abs(inv)) / 2.0`. -/
def computeHalfSpreadTicks (p : MMParams) (volEst : ℚ) (inv : ℤ) : ℚ :=
  (max p.minTickWidth 1 + volEst * p.volCoeff + (2/100) * (|inv| : ℚ)) / 2

/-- The per-level quote computation of
`SmartMarketMakingBot._market_make_loop` (lines 377–418): half-spread,
skew, center, aggressiveness flag, then for each level `lvl = 1..levels`
the offset, the jitter term `j = (random.random() - 0.5) * jitter * tick`
(the draw for level `lvl` is `draws (lvl - 1)`), the optional aggressive
adjustment, and tick-rounding of both prices.  Returns the list of
`(buy_px, sell_px)` pairs. -/
def computeLevels (p : MMParams) (theo tick : ℚ) (inv : ℤ) (volEst : ℚ)
    (draws : ℕ → ℚ) : List (ℚ × ℚ) :=
  let halfTicks := computeHalfSpreadTicks p volEst inv
  let halfSpreadPrice := halfTicks * tick
  let skew := p.skewCoeff * (inv : ℚ) * tick
  let center := priceToTick theo tick - skew
  let aggressive := (p.inventoryLimit : ℚ) * (8/10) < (|inv| : ℚ)
  (List.range p.levels).map (fun (i : ℕ) =>
    let offset := halfSpreadPrice * (1 + (1/2) * (i : ℚ))
    let j := (draws i - 1/2) * p.jitter * tick
    let buyPx := center - offset + j
    let sellPx := center + offset + j
    let buyPx := if aggressive then buyPx + (1/2) * offset else buyPx
    let sellPx := if aggressive then sellPx - (1/2) * offset else sellPx
    (priceToTick buyPx tick, priceToTick sellPx tick))

/-- The per-cycle quote size (lines 387–390): `max(1, int(base_volume *
0.2))` when `abs(inv) > inventory_limit`, else `base_volume`. -/
def levelQty (p : MMParams) (inv : ℤ) : ℤ :=
  if p.inventoryLimit < |inv| then max 1 (truncQ ((p.baseVolume : ℚ) * (2/10)))
  else p.baseVolume

/-- Order side, the `"BUY"` / `"SELL"` literals of the source. -/
inductive Side where
  | BUY : Side
  | SELL : Side
deriving DecidableEq

/-- An order request as handed to `send_order`: side, price, volume. -/
structure OrderReq where
  side : Side
  price : ℚ
  volume : ℤ
deriving DecidableEq

/-- The submission loop of `_market_make_loop` (lines 421–424): for each
computed `(buy_px, sell_px)` pair, if `buy_px < sell_px` then send the
buy and the sell at quantity `qty`, else send nothing for that level. -/
def submitLevels (qty : ℤ) (pairs : List (ℚ × ℚ)) : List OrderReq :=
  pairs.flatMap (fun bs =>
    if bs.1 < bs.2 then [⟨Side.BUY, bs.1, qty⟩, ⟨Side.SELL, bs.2, qty⟩]
    else [])

/-- The fair-value map of `CMIBot.theos`:
`{"EQUATOR": 100.0 + 0.5 * number_crossed_equator,
  "FLIGHTS": 200.0 + 0.2 * number_of_flights_in_air}`. -/
def theosList (numCrossed numInAir : ℕ) : List (String × ℚ) :=
  [("EQUATOR", 100 + (1/2) * (numCrossed : ℚ)),
   ("FLIGHTS", 200 + (2/10) * (numInAir : ℚ))]

/-- `self.theos.get(product, 100.0)` (line 373): dictionary lookup with
default fair value `100.0`. -/
def theoFor (ts : List (String × ℚ)) (product : String) : ℚ :=
  (ts.lookup product).getD 100

/-- One product's pass of `_market_make_loop`: read `theo` (with default
100.0), tick size (`tick_sizes.get(product, 1.0)`), compute the level
pairs, and submit the pairs that are not crossed or locked.  The
volatility estimate is the value `_get_vol_est` returned for the cycle;
the claims instantiate it (it is `0` whenever fewer than two usable
mid-price samples exist, see `getVolEst`). -/
def cycleForProduct (p : MMParams) (ts : List (String × ℚ))
    (tickSizes : List (String × ℚ)) (product : String) (inv : ℤ)
    (volEst : ℚ) (draws : ℕ → ℚ) : List OrderReq :=
  let theo := theoFor ts product
  let tick := (tickSizes.lookup product).getD 1
  submitLevels (levelQty p inv) (computeLevels p theo tick inv volEst draws)

/-- The simulated order identifier of `send_order` (line 108):
`f"sim-{int(time.time()*1000)}-{random.randint(0,999)}"`, determined by
the millisecond timestamp `tMs` and the random draw `r`. -/
def simOrderId (tMs r : ℕ) : String :=
  "sim-" ++ toString tMs ++ "-" ++ toString r

/-- A simulated order as built by `send_order`:
`{"id": oid, "product": ..., "side": ..., "price": ..., "volume": ...,
"status": "OPEN"}`. -/
structure Order where
  id : String
  product : String
  side : Side
  price : ℚ
  volume : ℤ
  status : String
deriving DecidableEq

/-- The per-product mutable state touched by the simulation paths of
`CMIBot`: the local open-order list `open_orders_local[product]`, the
signed inventory `inventory[product]`, and the rolling mid-price history
`recent_mid[product]`. -/
structure SimState where
  openOrders : List Order
  inventory : ℤ
  recentMid : List ℚ
deriving DecidableEq

/-- The mid-price insertion shared by `_simulate_market_updates`
(lines 230–232) and `_on_orderbook_wrapper` (lines 287–289):
`recent_mid[p].append(mid); if len(recent_mid[p]) > 200:
recent_mid[p].pop(0)`. -/
def pushMid (hist : List ℚ) (mid : ℚ) : List ℚ :=
  let h := hist ++ [mid]
  if 200 < h.length then h.tail else h

/-- One tick of `_simulate_market_updates` for one product: the
synthetic mid `theo * (1 + gauss)` is pushed into the history; nothing
else in the state is touched.  The Gaussian draw is abstracted into the
resulting `mid` value. -/
def simMidUpdate (s : SimState) (mid : ℚ) : SimState :=
  { s with recentMid := pushMid s.recentMid mid }

/-- `CMIBot._get_sim_mid`: the last element of `recent_mid[product]`,
`None` when the history is empty. -/
def getSimMid (s : SimState) : Option ℚ :=
  s.recentMid.getLast?

/-- `CMIBot._simulate_fill` (lines 251–263): drop every ledger entry
whose id equals the filled order's id, then apply the signed inventory
delta (`+volume` for BUY, `-volume` for SELL). -/
def simulateFill (s : SimState) (o : Order) : SimState :=
  { s with
    openOrders := s.openOrders.filter (fun x => x.id ≠ o.id),
    inventory :=
      if o.side = Side.BUY then s.inventory + o.volume
      else s.inventory - o.volume }

/-- The simulation branch of `CMIBot.send_order` (lines 106–119): build
the order with id `simOrderId tMs r` and status `"OPEN"`, append it to
the ledger, then if a simulated mid exists and the order is marketable
(`BUY` with `price ≥ mid`, or `SELL` with `price ≤ mid`) fill it
immediately; otherwise it rests.  Returns the created order and the new
state. -/
def sendOrderSim (s : SimState) (tMs r : ℕ) (product : String)
    (price : ℚ) (side : Side) (volume : ℤ) : Order × SimState :=
  let o : Order := ⟨simOrderId tMs r, product, side, price, volume, "OPEN"⟩
  let s1 : SimState := { s with openOrders := s.openOrders ++ [o] }
  match getSimMid s1 with
  | none => (o, s1)
  | some mid =>
      if (side = Side.BUY ∧ mid ≤ price) ∨ (side = Side.SELL ∧ price ≤ mid)
      then (o, simulateFill s1 o)
      else (o, s1)

/-- The simulation branch of `CMIBot.cancel_order` (lines 136–144): drop
every ledger entry with the given id; inventory untouched. -/
def cancelOrderSim (s : SimState) (oid : String) : SimState :=
  { s with openOrders := s.openOrders.filter (fun x => x.id ≠ oid) }

/-- The simulation branch of `CMIBot.cancel_all_orders` (lines 154–159):
empty the ledger; inventory untouched. -/
def cancelAllSim (s : SimState) : SimState :=
  { s with openOrders := [] }

/-- Python `lst[-window:]`: the last `window` elements, the whole list
when `window = 0` (since `lst[-0:] = lst[0:]`). -/
def takeLast (window : ℕ) (xs : List ℚ) : List ℚ :=
  if window = 0 then xs else xs.drop (xs.length - window)

/-- The log-return comprehension of `_get_vol_est` (line 241):
`[math.log(arr[i+1]/arr[i]) for i in range(len(arr)-1)
  if arr[i] > 0 and arr[i+1] > 0]`. -/
noncomputable def logReturns : List ℚ → List ℝ
  | [] => []
  | [_] => []
  | a :: b :: rest =>
      (if 0 < a ∧ 0 < b then [Real.log ((b : ℝ) / (a : ℝ))] else []) ++
        logReturns (b :: rest)

/-- The number of usable (strictly positive) samples in a window. -/
def usableCount (xs : List ℚ) : ℕ :=
  (xs.filter (fun x => 0 < x)).length

/-- Sample standard deviation as computed by `pandas.Series(xs).std()`
(delta degrees of freedom 1): `sqrt(Σ (x - mean)² / (n - 1))`. -/
noncomputable def sampleStd (xs : List ℝ) : ℝ :=
  let n : ℝ := (xs.length : ℝ)
  let m : ℝ := xs.sum / n
  Real.sqrt (((xs.map (fun x => (x - m) ^ 2)).sum) / (n - 1))

/-- `CMIBot._get_vol_est` (lines 235–244): window the history, return 0
when fewer than two samples, collect the log returns over consecutive
positive pairs, return 0 when none, else their sample standard
deviation. -/
noncomputable def getVolEst (recentMid : List ℚ) (window : ℕ) : ℝ :=
  let arr := takeLast window recentMid
  if arr.length < 2 then 0
  else
    let logs := logReturns arr
    if logs.isEmpty then 0 else sampleStd logs

/-- One normalized order-book level as produced by
`_on_orderbook_wrapper`'s `transform`:
`{"price": ..., "volume": market_v, "own_volume": user_v}`. -/
structure OBLevel where
  price : ℚ
  volume : ℤ
  ownVolume : ℤ
deriving DecidableEq

/-- One raw `price_s -> vi` entry of a side map in `im.py`.  `keyPrice`
is `float(price_s)` when the key parses, `none` when it raises (then the
fallback `float(vi.get("price", 0))`, held in `entryPrice`, is used);
`marketVolume` is `int(vi.get("marketVolume", vi.get("volume", 0)))` and
`userVolume` is `int(vi.get("userVolume", 0))`. -/
structure RawEntry where
  keyPrice : Option ℚ
  entryPrice : ℚ
  marketVolume : ℤ
  userVolume : ℤ
deriving DecidableEq

/-- The per-entry body of `transform` in `im.py` (lines 272–279). -/
def transformLevel (e : RawEntry) : OBLevel :=
  ⟨e.keyPrice.getD e.entryPrice, e.marketVolume, e.userVolume⟩

/-- Bid-side comparison used by `sorted(..., key=lambda d: -d["price"])`:
higher price first. -/
def bidLE (a b : OBLevel) : Prop := b.price ≤ a.price

/-- Ask-side comparison used by `sorted(..., key=lambda d: d["price"])`:
lower price first. -/
def askLE (a b : OBLevel) : Prop := a.price ≤ b.price

instance : DecidableRel bidLE := fun a b => inferInstanceAs (Decidable (b.price ≤ a.price))

instance : DecidableRel askLE := fun a b => inferInstanceAs (Decidable (a.price ≤ b.price))

instance : IsTotal OBLevel bidLE := ⟨fun a b => le_total b.price a.price⟩

instance : IsTrans OBLevel bidLE := ⟨fun _ _ _ hab hbc => le_trans hbc hab⟩

instance : IsTotal OBLevel askLE := ⟨fun a b => le_total a.price b.price⟩

instance : IsTrans OBLevel askLE := ⟨fun _ _ _ hab hbc => le_trans hab hbc⟩

/-- `ob["buy_orders"]` in `im.py` (line 281): the transformed bid side
sorted descending by price.  Python's `sorted` is a stable sort; a
stable sort over a total preorder is unique, so `List.insertionSort`
produces exactly its output. -/
def buyOrdersOf (raw : List RawEntry) : List OBLevel :=
  List.insertionSort bidLE (raw.map transformLevel)

/-- `ob["sell_orders"]` in `im.py` (line 282): the transformed ask side
sorted ascending by price. -/
def sellOrdersOf (raw : List RawEntry) : List OBLevel :=
  List.insertionSort askLE (raw.map transformLevel)

/-- One raw entry of a side map in `Improved version.py`
(lines 188–197): the key must parse (`float(price)` with no fallback)
and the `marketVolume` / `userVolume` fields are read directly. -/
structure RawEntryI where
  price : ℚ
  marketVolume : ℤ
  userVolume : ℤ
deriving DecidableEq

/-- The per-entry comprehension body of `Improved version.py`. -/
def transformLevelI (e : RawEntryI) : OBLevel :=
  ⟨e.price, e.marketVolume, e.userVolume⟩

/-- `orderbook["buy_orders"]` in `Improved version.py` (lines 188–192). -/
def buyOrdersOfI (raw : List RawEntryI) : List OBLevel :=
  List.insertionSort bidLE (raw.map transformLevelI)

/-- `orderbook["sell_orders"]` in `Improved version.py`
(lines 193–197). -/
def sellOrdersOfI (raw : List RawEntryI) : List OBLevel :=
  List.insertionSort askLE (raw.map transformLevelI)

/-- The mid-price derivation of `_on_orderbook_wrapper` (lines 284–289):
when both normalized sides are non-empty, push
`0.5 * (best_bid + best_ask)` into the mid-price history; otherwise the
history is untouched. -/
def obMidInsert (hist : List ℚ) (buys sells : List OBLevel) : List ℚ :=
  match buys, sells with
  | b :: _, s :: _ => pushMid hist ((1/2) * (b.price + s.price))
  | _, _ => hist

/-- Decimal value of a digit character (`'0'` ↦ 0, …, `'9'` ↦ 9); used
to decode the identifier strings produced by `simOrderId`. -/
def digitVal (c : Char) : ℕ := c.toNat - 48

/-- Decode a list of decimal digit characters back into the number they
print; a left inverse of `Nat.toDigits 10`. -/
def decodeDigits (ds : List Char) : ℕ :=
  ds.foldl (fun acc c => acc * 10 + digitVal c) 0

/-- The spec's end-to-end parameter set: `minTickWidth=2, baseVolume=10,
levels=1, jitter=0` (other knobs at their source defaults). -/
def mmScenario : MMParams :=
  { minTickWidth := 2, baseVolume := 10, inventoryLimit := 100,
    skewCoeff := 3/100, volCoeff := 200, levels := 1, jitter := 0 }

/-- `self.tick_sizes = {p: 1.0 for p in self.products}` for the default
product pair. -/
def defaultTickSizes : List (String × ℚ) :=
  [("EQUATOR", 1), ("FLIGHTS", 1)]

/-! ### Helper lemmas on decimal printing, used for order-id reasoning -/

theorem toDigitsCore_succ (f n : ℕ) (ds : List Char) :
    Nat.toDigitsCore 10 (f + 1) n ds =
      if n / 10 = 0 then (n % 10).digitChar :: ds
      else Nat.toDigitsCore 10 f (n / 10) ((n % 10).digitChar :: ds) := by
  simp [Nat.toDigitsCore]

theorem toDigitsCore_eq (n : ℕ) : ∀ (fuel : ℕ) (acc : List Char), n < fuel →
    Nat.toDigitsCore 10 fuel n acc = Nat.toDigits 10 n ++ acc := by
  induction n using Nat.strong_induction_on with
  | _ n ih =>
    intro fuel acc hlt
    obtain ⟨f, rfl⟩ : ∃ f, fuel = f + 1 := ⟨fuel - 1, by omega⟩
    rw [toDigitsCore_succ]
    by_cases h0 : n / 10 = 0
    · rw [if_pos h0]
      show _ = Nat.toDigitsCore 10 (n + 1) n [] ++ acc
      rw [toDigitsCore_succ, if_pos h0]
      simp
    · rw [if_neg h0]
      have hq : n / 10 < n := Nat.div_lt_self (by omega) (by omega)
      rw [ih (n / 10) hq f _ (by omega)]
      show _ = Nat.toDigitsCore 10 (n + 1) n [] ++ acc
      rw [toDigitsCore_succ, if_neg h0, ih (n / 10) hq n _ (by omega)]
      simp

theorem toDigits_lt (n : ℕ) (h : n < 10) : Nat.toDigits 10 n = [n.digitChar] := by
  show Nat.toDigitsCore 10 (n + 1) n [] = _
  rw [toDigitsCore_succ, if_pos (by omega)]
  simp [Nat.mod_eq_of_lt h]

theorem toDigits_ge (n : ℕ) (h : 10 ≤ n) :
    Nat.toDigits 10 n = Nat.toDigits 10 (n / 10) ++ [(n % 10).digitChar] := by
  show Nat.toDigitsCore 10 (n + 1) n [] = _
  rw [toDigitsCore_succ, if_neg (by omega),
    toDigitsCore_eq (n / 10) n _ (by omega)]

theorem decodeDigits_append (xs : List Char) (c : Char) :
    decodeDigits (xs ++ [c]) = 10 * decodeDigits xs + digitVal c := by
  simp [decodeDigits, List.foldl_append, Nat.mul_comm]

theorem digitVal_digitChar (d : ℕ) (h : d < 10) : digitVal d.digitChar = d := by
  revert h; revert d; decide

theorem decodeDigits_toDigits (n : ℕ) : decodeDigits (Nat.toDigits 10 n) = n := by
  induction n using Nat.strong_induction_on with
  | _ n ih =>
    by_cases h : n < 10
    · rw [toDigits_lt n h]
      simp [decodeDigits, digitVal_digitChar n h]
    · rw [toDigits_ge n (by omega), decodeDigits_append,
        ih (n / 10) (Nat.div_lt_self (by omega) (by omega)),
        digitVal_digitChar _ (Nat.mod_lt _ (by omega))]
      omega

theorem toDigits_ten_injective : Function.Injective (Nat.toDigits 10) := by
  intro a b h
  have := decodeDigits_toDigits a
  rw [h, decodeDigits_toDigits] at this
  omega

theorem digitChar_ne_dash (d : ℕ) (h : d < 10) : Nat.digitChar d ≠ '-' := by
  revert h; revert d; decide

theorem no_dash_toDigits (n : ℕ) : ∀ c ∈ Nat.toDigits 10 n, c ≠ '-' := by
  induction n using Nat.strong_induction_on with
  | _ n ih =>
    by_cases h : n < 10
    · rw [toDigits_lt n h]
      intro c hc
      simp at hc
      subst hc
      exact digitChar_ne_dash n h
    · rw [toDigits_ge n (by omega)]
      intro c hc
      rcases List.mem_append.mp hc with h1 | h1
      · exact ih (n / 10) (Nat.div_lt_self (by omega) (by omega)) c h1
      · simp at h1
        subst h1
        exact digitChar_ne_dash _ (Nat.mod_lt _ (by omega))

theorem sep_split : ∀ (xs1 : List Char) {ys1 xs2 ys2 : List Char},
    (∀ c ∈ xs1, c ≠ '-') → (∀ c ∈ xs2, c ≠ '-') →
    xs1 ++ '-' :: ys1 = xs2 ++ '-' :: ys2 → xs1 = xs2 ∧ ys1 = ys2 := by
  intro xs1
  induction xs1 with
  | nil =>
    intro ys1 xs2 ys2 _ h2 heq
    cases xs2 with
    | nil => simpa using heq
    | cons b xs2 =>
      simp at heq
      exact absurd heq.1.symm (h2 b (by simp))
  | cons a xs1 ih =>
    intro ys1 xs2 ys2 h1 h2 heq
    cases xs2 with
    | nil =>
      simp at heq
      exact absurd heq.1 (h1 a (by simp))
    | cons b xs2 =>
      simp at heq
      obtain ⟨rfl, heq⟩ := heq
      have := ih (fun c hc => h1 c (by simp [hc])) (fun c hc => h2 c (by simp [hc])) heq
      exact ⟨by rw [this.1], this.2⟩

theorem simOrderId_data (t r : ℕ) :
    (simOrderId t r).data =
      's' :: 'i' :: 'm' :: '-' :: (Nat.toDigits 10 t ++ '-' :: Nat.toDigits 10 r) := by
  show ((("sim-" ++ Nat.repr t) ++ "-") ++ Nat.repr r).data = _
  simp [String.data_append, Nat.repr]
  rfl

theorem simOrderId_inj (t1 r1 t2 r2 : ℕ)
    (h : simOrderId t1 r1 = simOrderId t2 r2) : t1 = t2 ∧ r1 = r2 := by
  have hd := congrArg String.data h
  rw [simOrderId_data, simOrderId_data] at hd
  simp only [List.cons.injEq] at hd
  have := sep_split (Nat.toDigits 10 t1) (no_dash_toDigits t1) (no_dash_toDigits t2)
    hd.2.2.2.2
  exact ⟨toDigits_ten_injective this.1, toDigits_ten_injective this.2⟩

/-! ### Helper lemmas on the volatility estimator and the mid buffer -/

theorem usableCount_cons (a : ℚ) (l : List ℚ) :
    usableCount (a :: l) = (if 0 < a then 1 else 0) + usableCount l := by
  simp only [usableCount, List.filter_cons]
  by_cases ha : 0 < a <;> simp [ha, Nat.add_comm]

theorem two_le_usable_of_logReturns_ne_nil :
    ∀ xs : List ℚ, logReturns xs ≠ [] → 2 ≤ usableCount xs := by
  intro xs
  match xs with
  | [] => intro h; exact absurd rfl h
  | [a] => intro h; exact absurd rfl h
  | a :: b :: rest =>
    intro h
    by_cases hab : 0 < a ∧ 0 < b
    · have hb : 1 ≤ usableCount (b :: rest) := by
        rw [usableCount_cons, if_pos hab.2]
        omega
      rw [usableCount_cons, if_pos hab.1]
      omega
    · have htail : logReturns (b :: rest) ≠ [] := by
        intro hnil
        apply h
        show (if 0 < a ∧ 0 < b then [Real.log ((b : ℝ) / (a : ℝ))] else []) ++
          logReturns (b :: rest) = []
        rw [if_neg hab, hnil]
        rfl
      have := two_le_usable_of_logReturns_ne_nil (b :: rest) htail
      rw [usableCount_cons]
      omega

theorem pushMid_length_le (h : List ℚ) (m : ℚ) (hle : h.length ≤ 200) :
    (pushMid h m).length ≤ 200 := by
  simp only [pushMid]
  split
  · simpa using by omega
  · simp at *
    omega

theorem pushMid_full (h : List ℚ) (m : ℚ) (hfull : h.length = 200) :
    pushMid h m = h.tail ++ [m] := by
  simp only [pushMid]
  rw [if_pos (by simp [hfull])]
  cases h with
  | nil => simp at hfull
  | cons a t => simp

/-! ### Claim theorems -/

/-- C3: in every quoting cycle, for every price level, a buy/sell order
pair is submitted only if the computed buy price is strictly below the
computed sell price; a crossed or locked pair contributes no order at
all (`_market_make_loop` lines 421–424). -/
theorem c3_submit_only_uncrossed (qty : ℤ) (pairs : List (ℚ × ℚ))
    (o : OrderReq) (ho : o ∈ submitLevels qty pairs) :
    ∃ bs ∈ pairs, bs.1 < bs.2 ∧
      (o = ⟨Side.BUY, bs.1, qty⟩ ∨ o = ⟨Side.SELL, bs.2, qty⟩) := by
  simp only [submitLevels, List.mem_flatMap] at ho
  obtain ⟨bs, hbs, hmem⟩ := ho
  by_cases hlt : bs.1 < bs.2
  · rw [if_pos hlt] at hmem
    simp only [List.mem_cons, List.not_mem_nil, or_false] at hmem
    exact ⟨bs, hbs, hlt, hmem⟩
  · rw [if_neg hlt] at hmem
    simp at hmem

/-- Witness for C3 at a concrete uncrossed level list. -/
theorem c3_submit_only_uncrossed_witness :
    ((⟨Side.BUY, 99, 10⟩ : OrderReq) ∈ submitLevels 10 [((99 : ℚ), 101)]) ∧
    ∃ bs ∈ [((99 : ℚ), 101)], bs.1 < bs.2 ∧
      ((⟨Side.BUY, 99, 10⟩ : OrderReq) = ⟨Side.BUY, bs.1, 10⟩ ∨
       (⟨Side.BUY, 99, 10⟩ : OrderReq) = ⟨Side.SELL, bs.2, 10⟩) :=
  ⟨by decide, c3_submit_only_uncrossed 10 [((99 : ℚ), 101)] _ (by decide)⟩

/-- C4: the volatility estimate is exactly 0 whenever fewer than two
usable (strictly positive) samples exist in the window, and on the
spec's concrete mid-price sequence `[100, 101, 99, 100]` with window 4
it equals the sample standard deviation of the three log returns
`ln(101/100), ln(99/101), ln(100/99)`. -/
theorem c4_vol_zero_and_example :
    (∀ (mids : List ℚ) (window : ℕ),
      usableCount (takeLast window mids) < 2 → getVolEst mids window = 0) ∧
    getVolEst [100, 101, 99, 100] 4 =
      sampleStd [Real.log ((101 : ℝ) / 100), Real.log ((99 : ℝ) / 101),
        Real.log ((100 : ℝ) / 99)] := by
  constructor
  · intro mids window hu
    unfold getVolEst
    by_cases hlen : (takeLast window mids).length < 2
    · simp [hlen]
    · rw [if_neg hlen]
      have hnil : logReturns (takeLast window mids) = [] := by
        by_contra hne
        exact absurd (two_le_usable_of_logReturns_ne_nil _ hne) (by omega)
      simp [hnil]
  · show getVolEst [100, 101, 99, 100] 4 = _
    simp only [getVolEst, takeLast]
    norm_num [logReturns]

/-- Witness for C4's zero case: `[-1, 5]` has one usable sample. -/
theorem c4_vol_zero_and_example_witness :
    usableCount (takeLast 4 [-1, 5]) < 2 ∧ getVolEst [-1, 5] 4 = 0 :=
  ⟨by decide, c4_vol_zero_and_example.1 [-1, 5] 4 (by decide)⟩

/-- C5: the per-product mid-price history never exceeds 200 entries —
for any insertion sequence from the empty initial history, and for one
insertion from any history within the bound (covering both call sites,
the synthetic generator and the order-book handler via `obMidInsert`) —
and on overflow the evicted entry is the head, i.e. the oldest (FIFO). -/
theorem c5_mid_history_bounded :
    (∀ ms : List ℚ, (ms.foldl pushMid []).length ≤ 200) ∧
    (∀ (h : List ℚ) (m : ℚ), h.length ≤ 200 → (pushMid h m).length ≤ 200) ∧
    (∀ (h : List ℚ) (m : ℚ), h.length = 200 → pushMid h m = h.tail ++ [m]) ∧
    (∀ (h : List ℚ) (buys sells : List OBLevel), h.length ≤ 200 →
      (obMidInsert h buys sells).length ≤ 200) := by
  refine ⟨?_, pushMid_length_le, pushMid_full, ?_⟩
  · intro ms
    suffices key : ∀ start : List ℚ, start.length ≤ 200 →
        (ms.foldl pushMid start).length ≤ 200 by
      exact key [] (by simp)
    induction ms with
    | nil => intro s hs; simpa using hs
    | cons m ms ih => intro s hs; exact ih _ (pushMid_length_le s m hs)
  · intro h buys sells hle
    cases buys with
    | nil => simpa [obMidInsert] using hle
    | cons b bt =>
      cases sells with
      | nil => simpa [obMidInsert] using hle
      | cons s st => exact pushMid_length_le _ _ hle

/-- Witness for C5 at a full 200-entry history. -/
theorem c5_mid_history_bounded_witness :
    (List.replicate 200 (0 : ℚ)).length = 200 ∧
    pushMid (List.replicate 200 (0 : ℚ)) 1 =
      (List.replicate 200 (0 : ℚ)).tail ++ [1] :=
  ⟨by rw [List.length_replicate],
   c5_mid_history_bounded.2.2.1 _ 1 (by rw [List.length_replicate])⟩

/-- C7: with the jitter parameter forced to zero, the computed level
prices do not depend on the random draws — identical
(theo, tick, inventory, volatility, level, aggressiveness) inputs give
identical buy/sell prices for any two draw sequences. -/
theorem c7_zero_jitter_deterministic (p : MMParams) (theo tick : ℚ)
    (inv : ℤ) (volEst : ℚ) (d1 d2 : ℕ → ℚ) :
    computeLevels { p with jitter := 0 } theo tick inv volEst d1 =
      computeLevels { p with jitter := 0 } theo tick inv volEst d2 := by
  simp only [computeLevels]
  congr 1
  funext i
  simp

/-- C10: in simulation mode no later operation fills a resting order —
any sequence of synthetic mid-price updates leaves the open-order list
and the inventory exactly as they were (it only appends to the
mid-price history), and cancellation never changes inventory. -/
theorem c10_mid_updates_never_fill (s : SimState) (mids : List ℚ)
    (oid : String) :
    (mids.foldl simMidUpdate s).openOrders = s.openOrders ∧
    (mids.foldl simMidUpdate s).inventory = s.inventory ∧
    (cancelOrderSim s oid).inventory = s.inventory ∧
    (cancelAllSim s).inventory = s.inventory := by
  refine ⟨?_, ?_, rfl, rfl⟩ <;>
  · induction mids generalizing s with
    | nil => rfl
    | cons m ms ih => exact (ih (simMidUpdate s m)).trans rfl

/-- C1 counterexample: in the spec's end-to-end scenario
(`minTickWidth=2, baseVolume=10, levels=1, jitter=0`, theo=100, tick=1,
inventory=0, volatility=0) the code's half-spread is 1 tick — the
formula `max(minTickWidth,1)/2` halves the width — and the submitted
pair is buy 99 / sell 101, not buy 98 / sell 102. -/
theorem c1_counterexample :
    computeHalfSpreadTicks mmScenario 0 0 = 1 ∧
    cycleForProduct mmScenario (theosList 0 0) defaultTickSizes "EQUATOR"
        0 0 (fun _ => 0) =
      [⟨Side.BUY, 99, 10⟩, ⟨Side.SELL, 101, 10⟩] ∧
    (⟨Side.BUY, 98, 10⟩ : OrderReq) ∉
      cycleForProduct mmScenario (theosList 0 0) defaultTickSizes "EQUATOR"
        0 0 (fun _ => 0) ∧
    (⟨Side.SELL, 102, 10⟩ : OrderReq) ∉
      cycleForProduct mmScenario (theosList 0 0) defaultTickSizes "EQUATOR"
        0 0 (fun _ => 0) := by
  have hh : computeHalfSpreadTicks mmScenario 0 0 = 1 := by
    norm_num [computeHalfSpreadTicks, mmScenario]
  have hc : cycleForProduct mmScenario (theosList 0 0) defaultTickSizes
      "EQUATOR" 0 0 (fun _ => 0) =
      [⟨Side.BUY, 99, 10⟩, ⟨Side.SELL, 101, 10⟩] := by
    norm_num [cycleForProduct, theosList, theoFor, levelQty, submitLevels,
      computeLevels, computeHalfSpreadTicks, priceToTick, pyRound, mmScenario,
      defaultTickSizes, List.lookup, List.range_succ, List.range_zero]
  refine ⟨hh, hc, ?_, ?_⟩ <;> rw [hc] <;> decide

/-- C1 amended: in the end-to-end scenario the half-spread is 1 tick =
price 1 around center 100, and the cycle submits buy 99 and sell 101,
for every random draw sequence (jitter is 0). -/
theorem c1_amended_quotes (draws : ℕ → ℚ) :
    computeHalfSpreadTicks mmScenario 0 0 = 1 ∧
    cycleForProduct mmScenario (theosList 0 0) defaultTickSizes "EQUATOR"
        0 0 draws =
      [⟨Side.BUY, 99, 10⟩, ⟨Side.SELL, 101, 10⟩] := by
  constructor
  · norm_num [computeHalfSpreadTicks, mmScenario]
  · norm_num [cycleForProduct, theosList, theoFor, levelQty, submitLevels,
      computeLevels, computeHalfSpreadTicks, priceToTick, pyRound, mmScenario,
      defaultTickSizes, List.lookup, List.range_succ, List.range_zero]

/-- C6 counterexample: for a product absent from the fair-value map
(fair value unavailable), the cycle does not skip — it substitutes the
default fair value 100.0 and submits a full set of quotes around it. -/
theorem c6_counterexample :
    (theosList 0 0).lookup "OTHER" = none ∧
    cycleForProduct {} (theosList 0 0) defaultTickSizes "OTHER" 0 0
        (fun _ => 1/2) =
      [⟨Side.BUY, 99, 10⟩, ⟨Side.SELL, 101, 10⟩,
       ⟨Side.BUY, 98, 10⟩, ⟨Side.SELL, 102, 10⟩] ∧
    cycleForProduct {} (theosList 0 0) defaultTickSizes "OTHER" 0 0
        (fun _ => 1/2) ≠ [] := by
  have hl : (theosList 0 0).lookup "OTHER" = none := by
    simp [theosList, List.lookup]
  have ht : theoFor (theosList 0 0) "OTHER" = 100 := by
    simp [theoFor, theosList, List.lookup]
  have hk : (List.lookup "OTHER" defaultTickSizes).getD 1 = 1 := by
    simp [defaultTickSizes, List.lookup]
  have hf1 : Int.fract ((197 : ℚ) / 2) = 1/2 := by norm_num [Int.fract]
  have hf2 : Int.fract ((1 : ℚ) / 2) = 1/2 := by norm_num [Int.fract]
  have hc : cycleForProduct {} (theosList 0 0) defaultTickSizes "OTHER" 0 0
      (fun _ => 1/2) =
      [⟨Side.BUY, 99, 10⟩, ⟨Side.SELL, 101, 10⟩,
       ⟨Side.BUY, 98, 10⟩, ⟨Side.SELL, 102, 10⟩] := by
    simp only [cycleForProduct, ht, hk]
    norm_num [levelQty, submitLevels, computeLevels, computeHalfSpreadTicks,
      priceToTick, pyRound, List.range_succ, List.range_zero, hf1, hf2]
  refine ⟨hl, hc, ?_⟩
  rw [hc]
  decide

/-- C6 amended: when the fair-value map has no entry for the product,
the quote engine quotes anyway, using the default fair value 100.0 as
the theo. -/
theorem c6_amended_default_theo (p : MMParams) (ts tickSizes : List (String × ℚ))
    (product : String) (inv : ℤ) (volEst : ℚ) (draws : ℕ → ℚ)
    (h : ts.lookup product = none) :
    theoFor ts product = 100 ∧
    cycleForProduct p ts tickSizes product inv volEst draws =
      submitLevels (levelQty p inv)
        (computeLevels p 100 ((tickSizes.lookup product).getD 1) inv volEst draws) := by
  have ht : theoFor ts product = 100 := by simp [theoFor, h]
  exact ⟨ht, by simp only [cycleForProduct, ht]⟩

/-- Witness for C6 amended at the empty fair-value map. -/
theorem c6_amended_default_theo_witness :
    (([] : List (String × ℚ)).lookup "X" = none) ∧
    (theoFor [] "X" = 100 ∧
      cycleForProduct {} [] [] "X" 0 0 (fun _ => 0) =
        submitLevels (levelQty {} 0)
          (computeLevels {} 100 ((([] : List (String × ℚ)).lookup "X").getD 1)
            0 0 (fun _ => 0))) :=
  ⟨rfl, c6_amended_default_theo {} [] [] "X" 0 0 (fun _ => 0) rfl⟩

/-- C9 counterexample: two distinct orders created in the same
millisecond with the same random draw receive the same identifier —
identifiers can repeat within a process run. -/
theorem c9_counterexample :
    (sendOrderSim ⟨[], 0, []⟩ 1000 5 "EQUATOR" 99 Side.BUY 10).1 ≠
      (sendOrderSim ⟨[], 0, []⟩ 1000 5 "FLIGHTS" 101 Side.SELL 10).1 ∧
    (sendOrderSim ⟨[], 0, []⟩ 1000 5 "EQUATOR" 99 Side.BUY 10).1.id =
      (sendOrderSim ⟨[], 0, []⟩ 1000 5 "FLIGHTS" 101 Side.SELL 10).1.id := by
  constructor
  · intro h
    exact absurd (congrArg Order.product h) (by decide)
  · rfl

/-- C9 amended: identifiers are injective in the (millisecond
timestamp, random draw) pair — any two simulated orders whose pairs
differ get unequal identifiers; only same-millisecond, same-draw orders
collide. -/
theorem c9_amended_id_unique (t1 r1 t2 r2 : ℕ)
    (hne : (t1, r1) ≠ (t2, r2)) : simOrderId t1 r1 ≠ simOrderId t2 r2 := by
  intro h
  obtain ⟨ht, hr⟩ := simOrderId_inj t1 r1 t2 r2 h
  exact hne (by rw [ht, hr])

/-- Witness for C9 amended: same millisecond, distinct draws. -/
theorem c9_amended_id_unique_witness :
    ((1, 2) : ℕ × ℕ) ≠ (1, 3) ∧ simOrderId 1 2 ≠ simOrderId 1 3 :=
  ⟨by decide, c9_amended_id_unique 1 2 1 3 (by decide)⟩

/-- Mid-price updates touch only the history: open orders and inventory
are preserved under any sequence of `simMidUpdate` steps. -/
theorem foldl_simMidUpdate_fields (s : SimState) (mids : List ℚ) :
    (mids.foldl simMidUpdate s).openOrders = s.openOrders ∧
    (mids.foldl simMidUpdate s).inventory = s.inventory := by
  induction mids generalizing s with
  | nil => exact ⟨rfl, rfl⟩
  | cons m ms ih =>
    exact ⟨((ih (simMidUpdate s m)).1).trans rfl,
      ((ih (simMidUpdate s m)).2).trans rfl⟩

/-- C2 counterexample: a BUY at 95 submitted with simulated mid 100
rests, and it is still resting with inventory unchanged after the mid
moves to 90 ≤ 95 — the simulated engine never fills a resting order
when the mid later crosses its price. -/
theorem c2_counterexample :
    (sendOrderSim ⟨[], 0, [100]⟩ 1 0 "EQUATOR" 95 Side.BUY 10).2 =
      ⟨[⟨simOrderId 1 0, "EQUATOR", Side.BUY, 95, 10, "OPEN"⟩], 0, [100]⟩ ∧
    simMidUpdate
        ⟨[⟨simOrderId 1 0, "EQUATOR", Side.BUY, 95, 10, "OPEN"⟩], 0, [100]⟩ 90 =
      ⟨[⟨simOrderId 1 0, "EQUATOR", Side.BUY, 95, 10, "OPEN"⟩], 0, [100, 90]⟩ := by
  exact ⟨by decide, by decide⟩

/-- C2 amended: at submission time a marketable order (BUY with
price ≥ mid, SELL with price ≤ mid) fills immediately — removed from
the ledger, inventory changed by exactly ±volume — while a
non-marketable order is appended to the ledger with inventory
unchanged; and it then rests forever: subsequent mid updates never
change the ledger or the inventory. -/
theorem c2_amended_fill_semantics (s : SimState) (tMs r : ℕ)
    (product : String) (price : ℚ) (volume : ℤ) (mid : ℚ)
    (hmid : getSimMid s = some mid) :
    (mid ≤ price →
      (sendOrderSim s tMs r product price Side.BUY volume).2.inventory
          = s.inventory + volume ∧
      (sendOrderSim s tMs r product price Side.BUY volume).1 ∉
        (sendOrderSim s tMs r product price Side.BUY volume).2.openOrders) ∧
    (price < mid →
      (sendOrderSim s tMs r product price Side.BUY volume).2 =
        { s with openOrders :=
            s.openOrders ++ [(sendOrderSim s tMs r product price Side.BUY volume).1] }) ∧
    (price ≤ mid →
      (sendOrderSim s tMs r product price Side.SELL volume).2.inventory
          = s.inventory - volume ∧
      (sendOrderSim s tMs r product price Side.SELL volume).1 ∉
        (sendOrderSim s tMs r product price Side.SELL volume).2.openOrders) ∧
    (mid < price →
      (sendOrderSim s tMs r product price Side.SELL volume).2 =
        { s with openOrders :=
            s.openOrders ++ [(sendOrderSim s tMs r product price Side.SELL volume).1] }) ∧
    (∀ (s2 : SimState) (mids : List ℚ),
      (mids.foldl simMidUpdate s2).openOrders = s2.openOrders ∧
      (mids.foldl simMidUpdate s2).inventory = s2.inventory) := by
  have hmid1 : s.recentMid.getLast? = some mid := hmid
  refine ⟨?_, ?_, ?_, ?_, foldl_simMidUpdate_fields⟩
  · intro hle
    constructor
    · simp [sendOrderSim, getSimMid, hmid1, hle, simulateFill]
    · simp [sendOrderSim, getSimMid, hmid1, hle, simulateFill, List.mem_filter]
  · intro hlt
    simp [sendOrderSim, getSimMid, hmid1, not_le.mpr hlt]
  · intro hle
    constructor
    · simp [sendOrderSim, getSimMid, hmid1, hle, simulateFill]
    · simp [sendOrderSim, getSimMid, hmid1, hle, simulateFill, List.mem_filter]
  · intro hlt
    simp [sendOrderSim, getSimMid, hmid1, not_le.mpr hlt]

/-- Witness for C2 amended: mid 100, marketable BUY at 105. -/
theorem c2_amended_fill_semantics_witness :
    getSimMid ⟨[], 5, [100]⟩ = some 100 ∧
    ((100 : ℚ) ≤ 105 →
      (sendOrderSim ⟨[], 5, [100]⟩ 1 0 "EQUATOR" 105 Side.BUY 10).2.inventory
          = (5 : ℤ) + 10 ∧
      (sendOrderSim ⟨[], 5, [100]⟩ 1 0 "EQUATOR" 105 Side.BUY 10).1 ∉
        (sendOrderSim ⟨[], 5, [100]⟩ 1 0 "EQUATOR" 105 Side.BUY 10).2.openOrders) :=
  ⟨rfl, (c2_amended_fill_semantics ⟨[], 5, [100]⟩ 1 0 "EQUATOR" 105 10 100 rfl).1⟩

/-- C8: for every raw order-book input, the normalized `buy_orders`
sequence is non-increasing by price (`bidLE`: each later level's price
is ≤ each earlier one's) and `sell_orders` is non-decreasing by price
(`askLE`), in both `im.py` and `Improved version.py`. -/
theorem c8_normalizer_sorted (raw : List RawEntry) (rawI : List RawEntryI) :
    List.Sorted bidLE (buyOrdersOf raw) ∧
    List.Sorted askLE (sellOrdersOf raw) ∧
    List.Sorted bidLE (buyOrdersOfI rawI) ∧
    List.Sorted askLE (sellOrdersOfI rawI) :=
  ⟨List.sorted_insertionSort bidLE _, List.sorted_insertionSort askLE _,
   List.sorted_insertionSort bidLE _, List.sorted_insertionSort askLE _⟩
